import Mathlib

/-!
Shallow embedding of the order-dataset analysis pipeline
(`src/Python_for_Data_Analysis.py`): a pandas script that loads a
semicolon-delimited table, coerces column types, imputes missing values
(mode for object-typed columns, median otherwise), writes the cleaned
table, derives `total_sales = quantity * price`, and computes aggregates
and a Pearson correlation matrix.

Modelling conventions:
* a cell is `Option Value` (`none` = pandas `NaN`/missing);
* a column carries its pandas dtype tag (`object`, numeric, `datetime64`),
  datetime values are represented numerically (timestamps), as pandas does
  internally;
* operations that can raise (`mode()[0]` on an empty mode result, the
  12-name column binding on a frame of a different width) return `Option`,
  with `none` standing for the raised exception aborting the run;
* floating-point numbers are modelled as exact rationals.
-/

namespace PDA

/-- A scalar value held in a cell: a string, or a number (floats and
int64/datetime64 values are modelled as exact rationals). -/
inductive Value where
  | str : String → Value
  | num : Rat → Value
deriving DecidableEq

/-- A cell of the table; `none` is pandas' missing marker (`NaN`/`NaT`). -/
abbrev Cell := Option Value

/-- The pandas dtype of a column, as far as the script's branches
distinguish them: `object` (strings), a numeric dtype (`int64`/`float64`),
or `datetime64`. -/
inductive DType where
  | obj
  | numeric
  | datetime
deriving DecidableEq

/-- A column: its dtype tag and its cells. -/
structure Column where
  dtype : DType
  cells : List Cell
deriving DecidableEq

/-- A table (`DataFrame`): an ordered list of named columns. -/
abbrev Table := List (String × Column)

/-! ## Loader (lines 10-16 of the source)

If the frame parsed with a single column, each row's string is split on
`;` and the resulting parts are bound positionally to the fixed 12-column
schema.  `data.columns = [...]` raises a `ValueError` when the split
frame's width differs from 12; this is modelled by returning `none`. -/

/-- The fixed 12-column schema, in source order. -/
def schema12 : List String :=
  ["order_id", "quantity", "product_id", "price", "seller_id",
   "freight_value", "customer_id", "order_status", "purchase_date",
   "payment_type", "product_category_name", "product_weight_gram"]

/-- Split a character list at every `;`, keeping empty segments, like
Python's `str.split(';')`. -/
def splitSemiList : List Char → List (List Char)
  | [] => [[]]
  | c :: rest =>
    let r := splitSemiList rest
    if c = ';' then [] :: r
    else
      match r with
      | [] => [[c]]
      | p :: ps => (c :: p) :: ps

/-- `str.split(';')` on one string. -/
def splitParts (s : String) : List String :=
  (splitSemiList s.data).map (fun cs => String.mk cs)

/-- View a cell as the string it holds; non-string cells act like missing
under the `.str` accessor. -/
def strCell : Cell → Option String
  | some (.str s) => some s
  | _ => none

/-- The rows of a single string column, as optional strings. -/
def strCells (cs : List Cell) : List (Option String) := cs.map strCell

/-- Width of the frame produced by `str.split(';', expand=True)`: the
maximum part count over the non-missing rows. -/
def maxParts (rows : List (Option String)) : Nat :=
  rows.foldl (fun m r =>
    match r with
    | none => m
    | some s => max m (splitParts s).length) 0

/-- Column `j` of the expanded split frame: row `i` holds the `j`-th
`;`-part of record `i`, or missing when record `i` has at most `j` parts
(or is itself missing). -/
def partCol (rows : List (Option String)) (j : Nat) : Column :=
  ⟨.obj, rows.map (fun r =>
    match r with
    | none => none
    | some s => ((splitParts s).get? j).map Value.str)⟩

/-- Bind the split parts positionally to the 12 schema names. -/
def bindSchema (rows : List (Option String)) : Table :=
  schema12.enum.map (fun p => (p.2, partCol rows p.1))

/-- The Loader's single-column handling: a one-column frame is split on
`;`; the 12-name assignment succeeds only when the split frame's width is
exactly 12 (otherwise pandas raises `ValueError`, modelled as `none`).
A frame with any other number of columns is left as parsed. -/
def loader : Table → Option Table
  | [(_, c)] =>
    let rows := strCells c.cells
    if maxParts rows = schema12.length then some (bindSchema rows) else none
  | t => some t

/-! ## Type coercion (lines 19-24)

`pd.to_numeric(errors='coerce')` on the four numeric-designated columns
and `pd.to_datetime(errors='coerce')` on `purchase_date`: per-cell parses
whose failures become missing values. -/

/-- Value of a decimal digit. -/
def digitVal (c : Char) : Option Nat :=
  if c.isDigit then some (c.toNat - 48) else none

/-- Parse a nonempty all-digit character list as a natural number. -/
def parseDigits (cs : List Char) : Option Nat :=
  if cs.isEmpty then none
  else cs.foldl (fun acc? c => acc?.bind fun a => (digitVal c).map fun d => a * 10 + d)
    (some 0)

/-- Model of `pd.to_numeric` on one string: optional sign, digits,
optional fractional digits.  Anything else fails (becomes missing). -/
def parseNum (s : String) : Option Rat :=
  let signSplit : Rat × List Char :=
    match s.data with
    | '-' :: rest => (-1, rest)
    | '+' :: rest => (1, rest)
    | cs => (1, cs)
  let intPart := signSplit.2.takeWhile (fun c => c ≠ '.')
  match signSplit.2.dropWhile (fun c => c ≠ '.') with
  | [] =>
    (parseDigits intPart).map (fun n =>
      if signSplit.1 < 0 then -((n : Nat) : Rat) else ((n : Nat) : Rat))
  | _ :: fracPart =>
    match parseDigits intPart, parseDigits fracPart with
    | some n, some f =>
      some (signSplit.1 * ((n : Rat) + (f : Rat) / ((10 : Rat) ^ fracPart.length)))
    | _, _ => none

/-- Model of `pd.to_datetime` on one string: an ISO `YYYY-MM-DD` date,
turned into a numeric timestamp.  Anything else fails (becomes missing). -/
def parseDate (s : String) : Option Rat :=
  match s.data.splitOn '-' with
  | [y, m, d] =>
    match parseDigits y, parseDigits m, parseDigits d with
    | some yn, some mn, some dn =>
      if 1 ≤ mn ∧ mn ≤ 12 ∧ 1 ≤ dn ∧ dn ≤ 31 then
        some ((yn * 10000 + mn * 100 + dn : Nat) : Rat)
      else none
    | _, _, _ => none
  | _ => none

/-- `to_numeric(errors='coerce')` on one cell. -/
def toNumericCell : Cell → Cell
  | some (.str s) => (parseNum s).map Value.num
  | c => c

/-- `to_numeric(errors='coerce')` on a column; the dtype becomes numeric. -/
def toNumericCol (c : Column) : Column :=
  ⟨.numeric, c.cells.map toNumericCell⟩

/-- `to_datetime(errors='coerce')` on one cell. -/
def toDatetimeCell : Cell → Cell
  | some (.str s) => (parseDate s).map Value.num
  | c => c

/-- `to_datetime(errors='coerce')` on a column; the dtype becomes
`datetime64`. -/
def toDatetimeCol (c : Column) : Column :=
  ⟨.datetime, c.cells.map toDatetimeCell⟩

/-- The four columns the script sends through `pd.to_numeric`. -/
def numericColNames : List String :=
  ["quantity", "price", "freight_value", "product_weight_gram"]

/-- The coercion applied to the column named `n`. -/
def coerceCol (n : String) (c : Column) : Column :=
  if n ∈ numericColNames then toNumericCol c
  else if n = "purchase_date" then toDatetimeCol c
  else c

/-- Lines 19-24: coerce the numeric-designated columns and
`purchase_date`, leave the rest alone. -/
def coerceTable (t : Table) : Table :=
  t.map (fun p => (p.1, coerceCol p.1 p.2))

/-! ## Imputation (lines 36-44)

For each column: object dtype → fill missing with `mode()[0]`
(raises when the mode result is empty, modelled as `none`); any other
dtype → fill missing with `median()` (`median()` of no data is `NaN`,
and filling with `NaN` changes nothing). -/

/-- The non-missing values of a cell list (`dropna`). -/
def nonMissing (cs : List Cell) : List Value := cs.filterMap id

/-- View a cell as the rational it holds. -/
def numCell : Cell → Option Rat
  | some (.num q) => some q
  | _ => none

/-- The non-missing numeric values of a cell list. -/
def numsOf (cs : List Cell) : List Rat := cs.filterMap numCell

/-- Insert into a sorted list (ascending). -/
def insertSorted (x : Rat) : List Rat → List Rat
  | [] => [x]
  | y :: ys => if x ≤ y then x :: y :: ys else y :: insertSorted x ys

/-- Sort ascending (insertion sort). -/
def sortQ (l : List Rat) : List Rat := l.foldr insertSorted []

/-- `Series.median` over the non-missing values: middle element of the
sorted list, or the average of the two middle elements; `none` (`NaN`)
when there is no data. -/
def medianQ (l : List Rat) : Option Rat :=
  if (sortQ l).length = 0 then none
  else if (sortQ l).length % 2 = 1 then (sortQ l).get? ((sortQ l).length / 2)
  else
    match (sortQ l).get? ((sortQ l).length / 2 - 1),
        (sortQ l).get? ((sortQ l).length / 2) with
    | some a, some b => some ((a + b) / 2)
    | _, _ => none

/-- Lexicographic strict order on character lists, by character code. -/
def charsLtB : List Char → List Char → Bool
  | [], [] => false
  | [], _ :: _ => true
  | _ :: _, [] => false
  | a :: as, b :: bs =>
    if a.toNat < b.toNat then true
    else if b.toNat < a.toNat then false
    else charsLtB as bs

/-- Strict order on values mirroring how pandas sorts the `mode()`
result (strings lexicographically, numbers by value). -/
def Value.ltB : Value → Value → Bool
  | .str a, .str b => charsLtB a.data b.data
  | .num a, .num b => decide (a < b)
  | .str _, .num _ => true
  | .num _, .str _ => false

/-- Pick between the current best mode candidate `a` and a challenger
`b`: strictly more frequent wins, equal frequency is broken towards the
smaller value (the `mode()` result is sorted, `[0]` takes its least). -/
def pickMode (l : List Value) (a b : Value) : Value :=
  if l.count b > l.count a then b
  else if l.count b = l.count a && Value.ltB b a then b
  else a

/-- `mode()[0]` over a value list: the most frequent value, ties broken
towards the smaller; `none` when there is no data (pandas raises there). -/
def modeVal (l : List Value) : Option Value :=
  match l with
  | [] => none
  | x :: xs => some (xs.foldl (pickMode l) x)

/-- `fillna(v)`: replace every missing cell by `v`. -/
def fillCells (cs : List Cell) (v : Value) : List Cell :=
  cs.map (fun c => some (c.getD v))

/-- One iteration of the fill loop on one column (lines 36-44):
object dtype → `fillna(mode()[0])`, `none` when the column has no
non-missing value (the `[0]` lookup raises); other dtypes →
`fillna(median())`, a no-op when the median is `NaN` (no data). -/
def imputeColumn (c : Column) : Option Column :=
  match c.dtype with
  | .obj =>
    match modeVal (nonMissing c.cells) with
    | none => none
    | some m => some ⟨.obj, fillCells c.cells m⟩
  | d =>
    match medianQ (numsOf c.cells) with
    | none => some c
    | some m => some ⟨d, fillCells c.cells (.num m)⟩

/-- The fill loop over all columns, in order; an exception in any column
aborts the run. -/
def imputeTable : Table → Option Table
  | [] => some []
  | (n, c) :: rest =>
    match imputeColumn c with
    | none => none
    | some c2 =>
      match imputeTable rest with
      | none => none
      | some r => some ((n, c2) :: r)

/-- The Cleaner stage: type coercion (lines 19-24) followed by the fill
loop (lines 36-44). -/
def cleanTable (t : Table) : Option Table :=
  imputeTable (coerceTable t)

/-! ## Summarizer (lines 56-77) -/

/-- `data[n]`: the first column named `n`. -/
def getCol (t : Table) (n : String) : Option Column :=
  (t.find? (fun p => p.1 == n)).map Prod.snd

/-- Elementwise product of two cells; missing or non-numeric operands
yield missing. -/
def mulCell : Cell → Cell → Cell
  | some (.num a), some (.num b) => some (.num (a * b))
  | _, _ => none

/-- Elementwise product of two cell lists (`data['quantity'] * data['price']`). -/
def mulCells (xs ys : List Cell) : List Cell :=
  List.zipWith mulCell xs ys

/-- The cells of the derived `total_sales` column (line 56); `none` when
either factor column is absent (pandas would raise a `KeyError`). -/
def totalSalesCells (t : Table) : Option (List Cell) :=
  match getCol t "quantity", getCol t "price" with
  | some cq, some cp => some (mulCells cq.cells cp.cells)
  | _, _ => none

/-- Line 56: append the derived `total_sales` column. -/
def addTotalSales (t : Table) : Option Table :=
  (totalSalesCells t).map (fun cs => t ++ [("total_sales", ⟨.numeric, cs⟩)])

/-- `Series.sum`: sum of the non-missing numeric cells (NaN-skipping). -/
def sumCells : List Cell → Rat
  | [] => 0
  | some (.num q) :: rest => q + sumCells rest
  | _ :: rest => sumCells rest

/-- `select_dtypes(include=['float64','int64'])`: the columns with a
numeric dtype (object and datetime columns are excluded). -/
def numericColumns (t : Table) : Table :=
  t.filter (fun p => decide (p.2.dtype = .numeric))

/-- Arithmetic mean of a rational list. -/
def meanQ (l : List Rat) : Rat := l.sum / (l.length : Rat)

/-- Deviations from the mean. -/
def devs (l : List Rat) : List Rat := l.map (fun x => x - meanQ l)

/-- Sum of products of deviations, the numerator (and squared-denominator
factors) of the Pearson correlation `DataFrame.corr` computes. -/
def sxy (xs ys : List Rat) : Rat :=
  (List.zipWith (fun a b => a * b) (devs xs) (devs ys)).sum

/-- Pearson correlation coefficient of two columns, as `DataFrame.corr`
computes each matrix entry (real-valued because of the square root). -/
noncomputable def corr (xs ys : List Rat) : Real :=
  ((sxy xs ys : Rat) : Real) /
    Real.sqrt (((sxy xs xs : Rat) : Real) * ((sxy ys ys : Rat) : Real))

/-! ## The pipeline order (load, clean, write, derive)

Line 52 writes the cleaned frame to `Corrected_File.xlsx`; line 56 then
adds `total_sales` to the in-memory frame only.  The pair returned below
is (content of the written file, final in-memory table). -/

/-- Load, clean, persist, then derive: the written artifact is the
cleaned table as of line 52, before `total_sales` exists. -/
def pipeline (t0 : Table) : Option (Table × Table) :=
  (loader t0).bind fun t1 =>
    (cleanTable t1).bind fun t2 =>
      (addTotalSales t2).map fun t3 => (t2, t3)

/-! ## Derived predicates used by the statements -/

/-- A cell a numeric-dtype column can actually hold: a number or missing
(pandas' dtype invariant for `int64`/`float64`/`datetime64` columns). -/
def numOrNone : Cell → Bool
  | none => true
  | some (.num _) => true
  | some (.str _) => false

/-- Dtype/content well-formedness of a column, as pandas guarantees it:
a non-object column holds only numbers or missing cells. -/
def Column.wfB (c : Column) : Bool :=
  match c.dtype with
  | .obj => true
  | _ => c.cells.all numOrNone

/-- The column has at least one non-missing value. -/
def Column.hasValue (c : Column) : Bool :=
  c.cells.any Option.isSome

/-- `isnull().sum()` for one column. -/
def missingCount (c : Column) : Nat :=
  c.cells.countP Option.isNone

/-- Every cell of the list is a non-missing number. -/
def allNumCells (cs : List Cell) : Bool :=
  cs.all numOrNone && cs.all Option.isSome

/-! ## Helper lemmas: sorting, median, mode, fill -/

theorem length_insertSorted (x : Rat) (l : List Rat) :
    (insertSorted x l).length = l.length + 1 := by
  induction l with
  | nil => rfl
  | cons y ys ih =>
    simp only [insertSorted]
    split
    · simp
    · simp [ih]

theorem length_sortQ (l : List Rat) : (sortQ l).length = l.length := by
  induction l with
  | nil => rfl
  | cons x xs ih =>
    simp only [sortQ, List.foldr_cons] at ih ⊢
    rw [length_insertSorted, ih, List.length_cons]

theorem medianQ_isSome {l : List Rat} (h : l ≠ []) : ∃ m, medianQ l = some m := by
  have hlen : (sortQ l).length = l.length := length_sortQ l
  have hpos : 0 < (sortQ l).length := by
    rw [hlen]
    exact List.length_pos.mpr h
  unfold medianQ
  rcases eq_or_ne ((sortQ l).length % 2) 1 with hodd | heven
  · have hlt : (sortQ l).length / 2 < (sortQ l).length := Nat.div_lt_self hpos (by omega)
    rw [List.get?_eq_get hlt]
    simp [Nat.pos_iff_ne_zero.mp hpos, hodd]
  · have h2 : 2 ≤ (sortQ l).length := by omega
    have hlt2 : (sortQ l).length / 2 < (sortQ l).length := Nat.div_lt_self hpos (by omega)
    have hlt1 : (sortQ l).length / 2 - 1 < (sortQ l).length := by omega
    rw [List.get?_eq_get hlt1, List.get?_eq_get hlt2]
    simp [Nat.pos_iff_ne_zero.mp hpos, heven]

theorem medianQ_ne_nil {l : List Rat} {m : Rat} (h : medianQ l = some m) : l ≠ [] := by
  intro hnil
  subst hnil
  simp [medianQ, sortQ] at h

theorem modeVal_isSome {l : List Value} (h : l ≠ []) : ∃ m, modeVal l = some m := by
  cases l with
  | nil => exact absurd rfl h
  | cons x xs => exact ⟨_, rfl⟩

theorem modeVal_ne_nil {l : List Value} {m : Value} (h : modeVal l = some m) : l ≠ [] := by
  intro hnil
  subst hnil
  simp [modeVal] at h

theorem isSome_of_mem_fillCells {cs : List Cell} {v : Value} {x : Cell}
    (hx : x ∈ fillCells cs v) : x.isSome = true := by
  simp only [fillCells, List.mem_map] at hx
  obtain ⟨c, _, rfl⟩ := hx
  cases c <;> rfl

theorem fillCells_of_isSome {cs : List Cell} (v : Value)
    (h : ∀ x ∈ cs, x.isSome = true) : fillCells cs v = cs := by
  induction cs with
  | nil => rfl
  | cons c rest ih =>
    have hc := h c (List.mem_cons_self c rest)
    cases c with
    | none => simp at hc
    | some a =>
      simp only [fillCells, List.map_cons, Option.getD_some]
      have := ih (fun x hx => h x (List.mem_cons_of_mem _ hx))
      simpa [fillCells] using this

theorem missingCount_fill {d : DType} {cs : List Cell} {v : Value} :
    missingCount ⟨d, fillCells cs v⟩ = 0 := by
  simp only [missingCount]
  rw [List.countP_eq_zero]
  intro a ha
  have := isSome_of_mem_fillCells ha
  simp [Option.isNone] at this ⊢
  cases a with
  | none => simp at this
  | some _ => rfl

theorem length_fillCells (cs : List Cell) (v : Value) :
    (fillCells cs v).length = cs.length := by
  simp [fillCells]

theorem nonMissing_ne_nil {cs : List Cell} (h : cs.any Option.isSome = true) :
    nonMissing cs ≠ [] := by
  rw [List.any_eq_true] at h
  obtain ⟨x, hx, hs⟩ := h
  cases x with
  | none => simp at hs
  | some v =>
    have : v ∈ nonMissing cs := by
      simp only [nonMissing, List.mem_filterMap]
      exact ⟨some v, hx, rfl⟩
    exact List.ne_nil_of_mem this

theorem numsOf_ne_nil {cs : List Cell} (hall : cs.all numOrNone = true)
    (h : cs.any Option.isSome = true) : numsOf cs ≠ [] := by
  rw [List.any_eq_true] at h
  obtain ⟨x, hx, hs⟩ := h
  rw [List.all_eq_true] at hall
  cases x with
  | none => simp at hs
  | some v =>
    cases v with
    | str s => exact absurd (hall _ hx) (by simp [numOrNone])
    | num q =>
      have : q ∈ numsOf cs := by
        simp only [numsOf, List.mem_filterMap]
        exact ⟨some (.num q), hx, rfl⟩
      exact List.ne_nil_of_mem this

theorem fillCells_any_isSome {cs : List Cell} (v : Value) (h : cs ≠ []) :
    (fillCells cs v).any Option.isSome = true := by
  cases cs with
  | nil => exact absurd rfl h
  | cons c rest =>
    rw [List.any_eq_true]
    refine ⟨some (c.getD v), ?_, rfl⟩
    simp [fillCells]

theorem numsOf_fillCells_ne_nil {cs : List Cell} (v : Value)
    (h : numsOf cs ≠ []) : numsOf (fillCells cs v) ≠ [] := by
  obtain ⟨q, hq⟩ := List.exists_mem_of_ne_nil _ h
  simp only [numsOf, List.mem_filterMap] at hq
  obtain ⟨x, hx, hnum⟩ := hq
  cases x with
  | none => simp [numCell] at hnum
  | some w =>
    cases w with
    | str s => simp [numCell] at hnum
    | num r =>
      have : some (Value.num r) ∈ fillCells cs v := by
        simp only [fillCells, List.mem_map]
        exact ⟨some (.num r), hx, rfl⟩
      have : r ∈ numsOf (fillCells cs v) := by
        simp only [numsOf, List.mem_filterMap]
        exact ⟨some (.num r), this, rfl⟩
      exact List.ne_nil_of_mem this

/-! ## Helper lemmas: imputeColumn -/

theorem medianQ_nil : medianQ ([] : List Rat) = none := rfl

theorem imputeColumn_total {c : Column} (hwf : c.wfB = true) (hv : c.hasValue = true) :
    ∃ c2, imputeColumn c = some c2 ∧ missingCount c2 = 0 ∧ c2.dtype = c.dtype := by
  obtain ⟨d, cells⟩ := c
  simp only [Column.hasValue] at hv
  cases d with
  | obj =>
    have hne : nonMissing cells ≠ [] := nonMissing_ne_nil hv
    obtain ⟨m, hm⟩ := modeVal_isSome hne
    exact ⟨⟨.obj, fillCells cells m⟩, by simp [imputeColumn, hm], missingCount_fill, rfl⟩
  | numeric =>
    simp only [Column.wfB] at hwf
    have hne : numsOf cells ≠ [] := numsOf_ne_nil hwf hv
    obtain ⟨m, hm⟩ := medianQ_isSome hne
    exact ⟨⟨.numeric, fillCells cells (.num m)⟩, by simp [imputeColumn, hm],
      missingCount_fill, rfl⟩
  | datetime =>
    simp only [Column.wfB] at hwf
    have hne : numsOf cells ≠ [] := numsOf_ne_nil hwf hv
    obtain ⟨m, hm⟩ := medianQ_isSome hne
    exact ⟨⟨.datetime, fillCells cells (.num m)⟩, by simp [imputeColumn, hm],
      missingCount_fill, rfl⟩

theorem imputeColumn_idem {c c2 : Column} (h : imputeColumn c = some c2) :
    imputeColumn c2 = some c2 := by
  obtain ⟨d, cells⟩ := c
  cases d with
  | obj =>
    cases hm : modeVal (nonMissing cells) with
    | none => simp [imputeColumn, hm] at h
    | some m =>
      simp only [imputeColumn, hm, Option.some.injEq] at h
      subst h
      have hcne : cells ≠ [] := by
        intro hnil
        subst hnil
        exact absurd hm (by simp [nonMissing, modeVal])
      have hne : nonMissing (fillCells cells m) ≠ [] :=
        nonMissing_ne_nil (fillCells_any_isSome m hcne)
      obtain ⟨m2, hm2⟩ := modeVal_isSome hne
      have hfix : fillCells (fillCells cells m) m2 = fillCells cells m :=
        fillCells_of_isSome m2 (fun x hx => isSome_of_mem_fillCells hx)
      simp [imputeColumn, hm2, hfix]
  | numeric =>
    cases hm : medianQ (numsOf cells) with
    | none =>
      simp only [imputeColumn, hm, Option.some.injEq] at h
      subst h
      simp [imputeColumn, hm]
    | some m =>
      simp only [imputeColumn, hm, Option.some.injEq] at h
      subst h
      have h1 : numsOf cells ≠ [] := by
        intro hnil
        rw [hnil] at hm
        simp [medianQ_nil] at hm
      obtain ⟨m2, hm2⟩ := medianQ_isSome (numsOf_fillCells_ne_nil (Value.num m) h1)
      have hfix : fillCells (fillCells cells (.num m)) (.num m2) = fillCells cells (.num m) :=
        fillCells_of_isSome _ (fun x hx => isSome_of_mem_fillCells hx)
      simp [imputeColumn, hm2, hfix]
  | datetime =>
    cases hm : medianQ (numsOf cells) with
    | none =>
      simp only [imputeColumn, hm, Option.some.injEq] at h
      subst h
      simp [imputeColumn, hm]
    | some m =>
      simp only [imputeColumn, hm, Option.some.injEq] at h
      subst h
      have h1 : numsOf cells ≠ [] := by
        intro hnil
        rw [hnil] at hm
        simp [medianQ_nil] at hm
      obtain ⟨m2, hm2⟩ := medianQ_isSome (numsOf_fillCells_ne_nil (Value.num m) h1)
      have hfix : fillCells (fillCells cells (.num m)) (.num m2) = fillCells cells (.num m) :=
        fillCells_of_isSome _ (fun x hx => isSome_of_mem_fillCells hx)
      simp [imputeColumn, hm2, hfix]

/-! ## Helper lemmas: imputeTable -/

theorem imputeTable_names {t t' : Table} (h : imputeTable t = some t') :
    t'.map Prod.fst = t.map Prod.fst := by
  induction t generalizing t' with
  | nil =>
    simp only [imputeTable, Option.some.injEq] at h
    subst h
    rfl
  | cons p rest ih =>
    obtain ⟨n, c⟩ := p
    simp only [imputeTable] at h
    cases h1 : imputeColumn c with
    | none => rw [h1] at h; simp at h
    | some c2 =>
      rw [h1] at h
      cases h2 : imputeTable rest with
      | none => rw [h2] at h; simp at h
      | some r =>
        rw [h2] at h
        simp only [Option.some.injEq] at h
        subst h
        simp [ih h2]

theorem imputeTable_total {t : Table}
    (h : ∀ p ∈ t, (p.2).wfB = true ∧ (p.2).hasValue = true) :
    ∃ t', imputeTable t = some t' ∧ ∀ p ∈ t', missingCount p.2 = 0 := by
  induction t with
  | nil => exact ⟨[], rfl, by simp⟩
  | cons p rest ih =>
    obtain ⟨n, c⟩ := p
    obtain ⟨hwf, hv⟩ := h (n, c) (List.mem_cons_self _ _)
    obtain ⟨c2, hc2, hmc, _⟩ := imputeColumn_total hwf hv
    obtain ⟨r, hr, hrp⟩ := ih (fun q hq => h q (List.mem_cons_of_mem _ hq))
    refine ⟨(n, c2) :: r, ?_, ?_⟩
    · simp [imputeTable, hc2, hr]
    · intro q hq
      rcases List.mem_cons.mp hq with rfl | hq2
      · exact hmc
      · exact hrp q hq2

theorem imputeTable_idem {t t' : Table} (h : imputeTable t = some t') :
    imputeTable t' = some t' := by
  induction t generalizing t' with
  | nil =>
    simp only [imputeTable, Option.some.injEq] at h
    subst h
    rfl
  | cons p rest ih =>
    obtain ⟨n, c⟩ := p
    simp only [imputeTable] at h
    cases h1 : imputeColumn c with
    | none => rw [h1] at h; simp at h
    | some c2 =>
      rw [h1] at h
      cases h2 : imputeTable rest with
      | none => rw [h2] at h; simp at h
      | some r =>
        rw [h2] at h
        simp only [Option.some.injEq] at h
        subst h
        simp [imputeTable, imputeColumn_idem h1, ih h2]

/-! ## Helper lemmas: coercion and idempotence of the Cleaner -/

theorem numOrNone_toNumericCell (x : Cell) : numOrNone (toNumericCell x) = true := by
  cases x with
  | none => rfl
  | some v =>
    cases v with
    | num q => rfl
    | str s =>
      simp only [toNumericCell]
      cases parseNum s <;> rfl

theorem numOrNone_toDatetimeCell (x : Cell) : numOrNone (toDatetimeCell x) = true := by
  cases x with
  | none => rfl
  | some v =>
    cases v with
    | num q => rfl
    | str s =>
      simp only [toDatetimeCell]
      cases parseDate s <;> rfl

theorem toNumericCell_of_numOrNone {x : Cell} (h : numOrNone x = true) :
    toNumericCell x = x := by
  cases x with
  | none => rfl
  | some v =>
    cases v with
    | num q => rfl
    | str s => simp [numOrNone] at h

theorem toDatetimeCell_of_numOrNone {x : Cell} (h : numOrNone x = true) :
    toDatetimeCell x = x := by
  cases x with
  | none => rfl
  | some v =>
    cases v with
    | num q => rfl
    | str s => simp [numOrNone] at h

theorem numOrNone_fillCells {cs : List Cell} {m : Rat}
    (h : ∀ x ∈ cs, numOrNone x = true) :
    ∀ y ∈ fillCells cs (.num m), numOrNone y = true := by
  intro y hy
  simp only [fillCells, List.mem_map] at hy
  obtain ⟨c, hc, rfl⟩ := hy
  cases c with
  | none => rfl
  | some v =>
    have := h (some v) hc
    cases v with
    | num q => rfl
    | str s => simp [numOrNone] at this

theorem toNumericCol_fixed {c : Column} (hd : c.dtype = .numeric)
    (hall : ∀ x ∈ c.cells, numOrNone x = true) : toNumericCol c = c := by
  obtain ⟨d, cells⟩ := c
  simp only at hd
  subst hd
  simp only [toNumericCol, Column.mk.injEq, true_and]
  calc cells.map toNumericCell
      = cells.map id := List.map_congr_left (fun x hx => toNumericCell_of_numOrNone (hall x hx))
    _ = cells := List.map_id cells

theorem toDatetimeCol_fixed {c : Column} (hd : c.dtype = .datetime)
    (hall : ∀ x ∈ c.cells, numOrNone x = true) : toDatetimeCol c = c := by
  obtain ⟨d, cells⟩ := c
  simp only at hd
  subst hd
  simp only [toDatetimeCol, Column.mk.injEq, true_and]
  calc cells.map toDatetimeCell
      = cells.map id := List.map_congr_left (fun x hx => toDatetimeCell_of_numOrNone (hall x hx))
    _ = cells := List.map_id cells

theorem imputeColumn_preserves {c c2 : Column} (hd : c.dtype ≠ .obj)
    (hall : ∀ x ∈ c.cells, numOrNone x = true)
    (h : imputeColumn c = some c2) :
    c2.dtype = c.dtype ∧ ∀ x ∈ c2.cells, numOrNone x = true := by
  obtain ⟨d, cells⟩ := c
  cases d with
  | obj => exact absurd rfl hd
  | numeric =>
    cases hm : medianQ (numsOf cells) with
    | none =>
      simp only [imputeColumn, hm, Option.some.injEq] at h
      subst h
      exact ⟨rfl, hall⟩
    | some m =>
      simp only [imputeColumn, hm, Option.some.injEq] at h
      subst h
      exact ⟨rfl, numOrNone_fillCells hall⟩
  | datetime =>
    cases hm : medianQ (numsOf cells) with
    | none =>
      simp only [imputeColumn, hm, Option.some.injEq] at h
      subst h
      exact ⟨rfl, hall⟩
    | some m =>
      simp only [imputeColumn, hm, Option.some.injEq] at h
      subst h
      exact ⟨rfl, numOrNone_fillCells hall⟩

theorem coerceCol_idem {n : String} {c c2 : Column}
    (h : imputeColumn (coerceCol n c) = some c2) : coerceCol n c2 = c2 := by
  by_cases hn : n ∈ numericColNames
  · rw [coerceCol, if_pos hn] at h
    have hall : ∀ x ∈ (toNumericCol c).cells, numOrNone x = true := by
      intro x hx
      simp only [toNumericCol, List.mem_map] at hx
      obtain ⟨y, _, rfl⟩ := hx
      exact numOrNone_toNumericCell y
    have hd : (toNumericCol c).dtype ≠ .obj := by simp [toNumericCol]
    obtain ⟨hd2, hall2⟩ := imputeColumn_preserves hd hall h
    rw [coerceCol, if_pos hn]
    exact toNumericCol_fixed (by simpa [toNumericCol] using hd2) hall2
  · by_cases hp : n = "purchase_date"
    · rw [coerceCol, if_neg hn, if_pos hp] at h
      have hall : ∀ x ∈ (toDatetimeCol c).cells, numOrNone x = true := by
        intro x hx
        simp only [toDatetimeCol, List.mem_map] at hx
        obtain ⟨y, _, rfl⟩ := hx
        exact numOrNone_toDatetimeCell y
      have hd : (toDatetimeCol c).dtype ≠ .obj := by simp [toDatetimeCol]
      obtain ⟨hd2, hall2⟩ := imputeColumn_preserves hd hall h
      rw [coerceCol, if_neg hn, if_pos hp]
      exact toDatetimeCol_fixed (by simpa [toDatetimeCol] using hd2) hall2
    · rw [coerceCol, if_neg hn, if_neg hp]

theorem imputeTable_coerce_fixed {s t' : Table}
    (h : imputeTable (coerceTable s) = some t') : coerceTable t' = t' := by
  induction s generalizing t' with
  | nil =>
    simp only [coerceTable, List.map_nil, imputeTable, Option.some.injEq] at h
    subst h
    rfl
  | cons p rest ih =>
    obtain ⟨n, c⟩ := p
    have hsplit : coerceTable ((n, c) :: rest) = (n, coerceCol n c) :: coerceTable rest := rfl
    rw [hsplit] at h
    simp only [imputeTable] at h
    cases h1 : imputeColumn (coerceCol n c) with
    | none => rw [h1] at h; simp at h
    | some c2 =>
      rw [h1] at h
      cases h2 : imputeTable (coerceTable rest) with
      | none => rw [h2] at h; simp at h
      | some r =>
        rw [h2] at h
        simp only [Option.some.injEq] at h
        subst h
        have : coerceTable ((n, c2) :: r) = (n, coerceCol n c2) :: coerceTable r := rfl
        rw [this, coerceCol_idem h1, ih h2]

theorem cleanTable_idempotent {t t' : Table} (h : cleanTable t = some t') :
    cleanTable t' = some t' := by
  have hc : coerceTable t' = t' := imputeTable_coerce_fixed h
  have hi : imputeTable t' = some t' := imputeTable_idem h
  unfold cleanTable
  rw [hc, hi]

theorem map_fst_coerceTable (t : Table) :
    (coerceTable t).map Prod.fst = t.map Prod.fst := by
  induction t with
  | nil => rfl
  | cons p rest ih => simp [coerceTable]

theorem cleanTable_names {t t' : Table} (h : cleanTable t = some t') :
    t'.map Prod.fst = t.map Prod.fst :=
  (imputeTable_names h).trans (map_fst_coerceTable t)

/-! ## Helper lemmas: loader -/

theorem loader_single (n : String) (c : Column) :
    loader [(n, c)] =
      if maxParts (strCells c.cells) = schema12.length
      then some (bindSchema (strCells c.cells)) else none := rfl

theorem map_fst_bindSchema (rows : List (Option String)) :
    (bindSchema rows).map Prod.fst = schema12 := rfl

theorem loader_pass {t : Table} (h : 2 ≤ t.length) : loader t = some t := by
  cases t with
  | nil => simp at h
  | cons p rest =>
    cases rest with
    | nil => simp at h
    | cons q rest2 => rfl

theorem length_strCells (cs : List Cell) : (strCells cs).length = cs.length := by
  simp [strCells]

theorem length_partCol (rows : List (Option String)) (j : Nat) :
    (partCol rows j).cells.length = rows.length := by
  simp [partCol]

theorem partCol_get_of_str {rows : List (Option String)} {i : Nat} {s : String}
    (h : rows.get? i = some (some s)) (j : Nat) :
    (partCol rows j).cells.get? i = some (((splitParts s).get? j).map Value.str) := by
  simp only [partCol, List.get?_map, h, Option.map_some']

/-! ## Helper lemmas: total_sales -/

theorem get?_zipWith {α β γ : Type} {f : α → β → γ} :
    ∀ {xs : List α} {ys : List β} {i : Nat} {a : α} {b : β},
      xs.get? i = some a → ys.get? i = some b →
      (List.zipWith f xs ys).get? i = some (f a b) := by
  intro xs
  induction xs with
  | nil => intro ys i a b h1 _; simp at h1
  | cons x xs ih =>
    intro ys i a b h1 h2
    cases ys with
    | nil => simp at h2
    | cons y ys =>
      cases i with
      | zero =>
        simp only [List.get?_cons_zero, Option.some.injEq] at h1 h2
        subst h1
        subst h2
        rfl
      | succ k =>
        simp only [List.get?_cons_succ] at h1 h2 ⊢
        simp only [List.zipWith_cons_cons, List.get?_cons_succ]
        exact ih h1 h2

theorem cell_num_of {c : Cell} (h1 : numOrNone c = true) (h2 : c.isSome = true) :
    ∃ q, c = some (Value.num q) := by
  cases c with
  | none => simp at h2
  | some v =>
    cases v with
    | str s => simp [numOrNone] at h1
    | num q => exact ⟨q, rfl⟩

theorem numsOf_map_num (qs : List Rat) :
    numsOf (qs.map (fun q => some (Value.num q))) = qs := by
  induction qs with
  | nil => rfl
  | cons q rest ih => simp [numsOf, numCell] at ih ⊢; exact ih

theorem allNumCells_decomp {cs : List Cell} (h : allNumCells cs = true) :
    cs = (numsOf cs).map (fun q => some (Value.num q)) := by
  induction cs with
  | nil => rfl
  | cons c rest ih =>
    simp only [allNumCells, List.all_cons, Bool.and_eq_true] at h
    obtain ⟨⟨hn, hnall⟩, hs, hsall⟩ := h
    obtain ⟨q, rfl⟩ := cell_num_of hn hs
    have : allNumCells rest = true := by simp [allNumCells, hnall, hsall]
    have ihr := ih this
    simp only [numsOf, List.filterMap_cons]
    simp only [numCell, List.map_cons]
    exact congrArg _ ihr

theorem sumCells_mul_pure :
    ∀ qs ps : List Rat,
      sumCells (mulCells (qs.map (fun q => some (Value.num q)))
        (ps.map (fun q => some (Value.num q)))) =
      (List.zipWith (fun a b => a * b) qs ps).sum := by
  intro qs
  induction qs with
  | nil => intro ps; rfl
  | cons q qs ih =>
    intro ps
    cases ps with
    | nil => rfl
    | cons p ps =>
      simp only [List.map_cons, mulCells, List.zipWith_cons_cons, List.sum_cons]
      have : mulCell (some (Value.num q)) (some (Value.num p)) = some (Value.num (q * p)) := rfl
      rw [this]
      show q * p + sumCells (mulCells (qs.map _) (ps.map _)) = q * p + _
      rw [ih ps]

theorem sumCells_mulCells {xs ys : List Cell}
    (hx : allNumCells xs = true) (hy : allNumCells ys = true) :
    sumCells (mulCells xs ys) =
      (List.zipWith (fun a b => a * b) (numsOf xs) (numsOf ys)).sum := by
  calc sumCells (mulCells xs ys)
      = sumCells (mulCells ((numsOf xs).map (fun q => some (Value.num q)))
          ((numsOf ys).map (fun q => some (Value.num q)))) := by
        rw [← allNumCells_decomp hx, ← allNumCells_decomp hy]
    _ = (List.zipWith (fun a b => a * b) (numsOf xs) (numsOf ys)).sum :=
        sumCells_mul_pure _ _

/-! ## Helper lemmas: Pearson correlation -/

theorem sxy_comm (xs ys : List Rat) : sxy xs ys = sxy ys xs := by
  unfold sxy
  rw [List.zipWith_comm_of_comm _ mul_comm]

theorem sxy_self_nonneg (xs : List Rat) : 0 ≤ sxy xs xs := by
  unfold sxy
  rw [List.zipWith_same]
  apply List.sum_nonneg
  intro x hx
  simp only [List.mem_map] at hx
  obtain ⟨y, _, rfl⟩ := hx
  exact mul_self_nonneg y

theorem corr_comm (xs ys : List Rat) : corr xs ys = corr ys xs := by
  unfold corr
  rw [sxy_comm xs ys, mul_comm ((sxy xs xs : Rat) : Real) ((sxy ys ys : Rat) : Real)]

theorem corr_self {xs : List Rat} (h : sxy xs xs ≠ 0) : corr xs xs = 1 := by
  unfold corr
  have h0 : (0 : Real) ≤ ((sxy xs xs : Rat) : Real) := by
    exact_mod_cast sxy_self_nonneg xs
  rw [Real.sqrt_mul_self h0]
  have hne : ((sxy xs xs : Rat) : Real) ≠ 0 := by exact_mod_cast h
  exact div_self hne

theorem fillCells_get_none {cs : List Cell} {i : Nat} (h : cs.get? i = some none)
    (v : Value) : (fillCells cs v).get? i = some (some v) := by
  rw [fillCells, List.get?_map, h]
  rfl

/-! ## The claims -/

/-- Claim C1: for every table entering the Cleaner's imputation loop in
which each column is dtype-well-formed and has at least one non-missing
value, the loop runs to completion and every column of its output has a
missing-value count of exactly 0. -/
theorem claim1_no_missing_after_imputation (t : Table)
    (h : ∀ p ∈ t, (p.2).wfB = true ∧ (p.2).hasValue = true) :
    ∃ t', imputeTable t = some t' ∧ ∀ p ∈ t', missingCount p.2 = 0 :=
  imputeTable_total h

theorem claim1_witness :
    ∃ t', imputeTable
        [("order_status", ⟨.obj, [some (.str "ok"), none]⟩),
         ("price", ⟨.numeric, [some (.num 1), none]⟩)] = some t' ∧
      ∀ p ∈ t', missingCount p.2 = 0 :=
  claim1_no_missing_after_imputation _ (by decide)

/-- Claim C2: in a column with at least one non-missing value, the fill
loop replaces each missing cell of an object-dtype (categorical) column
with the column's mode over its non-missing values, and each missing cell
of a non-object (numeric) column with the median of its non-missing
values; concretely, the mode of `["a","a","b",missing]` is `"a"` and the
median imputed into `[1,3,missing,5]` is `3`. -/
theorem claim2_imputation_policy (c c' : Column) (i : Nat)
    (h : imputeColumn c = some c') (hwf : c.wfB = true) (hv : c.hasValue = true)
    (hi : c.cells.get? i = some none) :
    (c.dtype = .obj →
      ∃ m, modeVal (nonMissing c.cells) = some m ∧
        c'.cells.get? i = some (some m)) ∧
    (c.dtype ≠ .obj →
      ∃ m, medianQ (numsOf c.cells) = some m ∧
        c'.cells.get? i = some (some (Value.num m))) ∧
    modeVal (nonMissing [some (.str "a"), some (.str "a"), some (.str "b"), none]) =
      some (.str "a") ∧
    medianQ (numsOf [some (.num 1), some (.num 3), none, some (.num 5)]) = some 3 := by
  obtain ⟨d, cells⟩ := c
  simp only [Column.hasValue] at hv
  refine ⟨?_, ?_, by decide, by decide⟩
  · intro hd
    simp only at hd
    subst hd
    cases hm : modeVal (nonMissing cells) with
    | none => simp [imputeColumn, hm] at h
    | some m =>
      simp only [imputeColumn, hm, Option.some.injEq] at h
      subst h
      exact ⟨m, rfl, fillCells_get_none hi m⟩
  · intro hd
    cases d with
    | obj => exact absurd rfl hd
    | numeric =>
      simp only [Column.wfB] at hwf
      obtain ⟨m, hm⟩ := medianQ_isSome (numsOf_ne_nil hwf hv)
      simp only [imputeColumn, hm, Option.some.injEq] at h
      subst h
      exact ⟨m, hm, fillCells_get_none hi _⟩
    | datetime =>
      simp only [Column.wfB] at hwf
      obtain ⟨m, hm⟩ := medianQ_isSome (numsOf_ne_nil hwf hv)
      simp only [imputeColumn, hm, Option.some.injEq] at h
      subst h
      exact ⟨m, hm, fillCells_get_none hi _⟩

theorem claim2_witness :
    ∃ m, medianQ (numsOf [some (.num 1), some (.num 3), none, some (.num 5)]) = some m ∧
      ([some (.num 1), some (.num 3), some (.num 3), some (.num 5)] : List Cell).get? 2 =
        some (some (Value.num m)) := by
  have h := claim2_imputation_policy
    ⟨.numeric, [some (.num 1), some (.num 3), none, some (.num 5)]⟩
    ⟨.numeric, [some (.num 1), some (.num 3), some (.num 3), some (.num 5)]⟩
    2 (by decide) (by decide) (by decide) (by decide)
  exact h.2.1 (by decide)

/-- Claim C3 counterexample: a single-column input whose record splits
into 2 parts is not kept with missing values; the 12-name column binding
raises (modelled by `none`), aborting the run, so the Loader does not
fail soft on every wrong field count. -/
theorem claim3_counterexample :
    loader [("records", ⟨.obj, [some (.str "a;b")]⟩)] = none := by decide

/-- Claim C3 (amended): when the maximum `;`-part count over the records
is exactly 12, the split frame binds to the schema, every record is kept
(column lengths match the record count), and each record's absent
positions (indices at or beyond its own part count, where `get?` is
`none`) become missing values; when the maximum part count differs from
12, the column binding raises and the run aborts. -/
theorem claim3_soft_fail_only_at_width_12 (n : String) (c : Column) :
    (maxParts (strCells c.cells) = 12 →
      loader [(n, c)] = some (bindSchema (strCells c.cells)) ∧
      (∀ j, (partCol (strCells c.cells) j).cells.length = c.cells.length) ∧
      (∀ i s, (strCells c.cells).get? i = some (some s) → ∀ j,
        (partCol (strCells c.cells) j).cells.get? i =
          some (((splitParts s).get? j).map Value.str))) ∧
    (maxParts (strCells c.cells) ≠ 12 → loader [(n, c)] = none) := by
  have hlen : schema12.length = 12 := rfl
  constructor
  · intro h12
    refine ⟨?_, ?_, ?_⟩
    · rw [loader_single, if_pos (by rw [hlen]; exact h12)]
    · intro j
      rw [length_partCol, length_strCells]
    · intro i s hs j
      exact partCol_get_of_str hs j
  · intro hne
    rw [loader_single, if_neg]
    rw [hlen]
    exact hne

theorem claim3_amended_witness :
    loader [("records", ⟨.obj,
        [some (.str "a;1;b;2;c;3;d;ok;2020-01-05;cc;cat;100"), some (.str "x;y")]⟩)] =
      some (bindSchema (strCells
        [some (.str "a;1;b;2;c;3;d;ok;2020-01-05;cc;cat;100"), some (.str "x;y")])) :=
  ((claim3_soft_fail_only_at_width_12 "records" ⟨.obj,
    [some (.str "a;1;b;2;c;3;d;ok;2020-01-05;cc;cat;100"), some (.str "x;y")]⟩).1
    (by decide)).1

/-- Claim C4: the Cleaner (type coercion followed by the imputation loop)
is idempotent: re-running it on its own output returns that output
unchanged. -/
theorem claim4_cleaner_idempotent (t t' : Table) (h : cleanTable t = some t') :
    cleanTable t' = some t' :=
  cleanTable_idempotent h

theorem claim4_witness :
    cleanTable [("order_status", ⟨.obj, [some (.str "ok"), some (.str "ok")]⟩)] =
      some [("order_status", ⟨.obj, [some (.str "ok"), some (.str "ok")]⟩)] :=
  claim4_cleaner_idempotent
    [("order_status", ⟨.obj, [some (.str "ok"), none]⟩)]
    [("order_status", ⟨.obj, [some (.str "ok"), some (.str "ok")]⟩)]
    (by decide)

/-- Claim C5: the derived column is the elementwise product
`total_sales[i] = quantity[i] * price[i]`, exact for integer inputs
(2 × 100 = 200 exactly), and its NaN-skipping sum equals the sum of
`quantity[i] * price[i]` over all rows when both columns are fully
numeric. -/
theorem claim5_total_sales (t t' : Table) (cq cp : Column)
    (hq : getCol t "quantity" = some cq) (hp : getCol t "price" = some cp)
    (ha : addTotalSales t = some t') :
    t' = t ++ [("total_sales", ⟨.numeric, mulCells cq.cells cp.cells⟩)] ∧
    (∀ i a b, cq.cells.get? i = some (some (.num a)) →
      cp.cells.get? i = some (some (.num b)) →
      (mulCells cq.cells cp.cells).get? i = some (some (.num (a * b)))) ∧
    (allNumCells cq.cells = true → allNumCells cp.cells = true →
      sumCells (mulCells cq.cells cp.cells) =
        (List.zipWith (fun a b => a * b) (numsOf cq.cells) (numsOf cp.cells)).sum) ∧
    mulCell (some (.num 2)) (some (.num 100)) = some (.num 200) := by
  refine ⟨?_, ?_, fun hx hy => sumCells_mulCells hx hy, by norm_num [mulCell]⟩
  · simp only [addTotalSales, totalSalesCells, hq, hp, Option.map_some',
      Option.some.injEq] at ha
    exact ha.symm
  · intro i a b h1 h2
    exact get?_zipWith h1 h2

theorem claim5_witness :
    mulCell (some (.num 2)) (some (.num 100)) = some (.num 200) := by
  have h := claim5_total_sales
    [("quantity", ⟨.numeric, [some (.num 2)]⟩), ("price", ⟨.numeric, [some (.num 100)]⟩)]
    ([("quantity", ⟨.numeric, [some (.num 2)]⟩), ("price", ⟨.numeric, [some (.num 100)]⟩)] ++
      [("total_sales", ⟨.numeric,
        mulCells [some (Value.num 2)] [some (Value.num 100)]⟩)])
    ⟨.numeric, [some (.num 2)]⟩ ⟨.numeric, [some (.num 100)]⟩
    (by rfl) (by rfl) (by rfl)
  exact h.2.2.2

/-- Claim C6: for any two columns the Summarizer's numeric-dtype
selection keeps, the Pearson correlation `DataFrame.corr` computes is
symmetric, and the self-correlation is exactly 1 whenever the column has
nonzero variance (nonzero sum of squared deviations). -/
theorem claim6_corr_symmetric (t : Table) (p q : String × Column)
    (_hp : p ∈ numericColumns t) (_hq : q ∈ numericColumns t) :
    corr (numsOf p.2.cells) (numsOf q.2.cells) =
      corr (numsOf q.2.cells) (numsOf p.2.cells) ∧
    (sxy (numsOf p.2.cells) (numsOf p.2.cells) ≠ 0 →
      corr (numsOf p.2.cells) (numsOf p.2.cells) = 1) :=
  ⟨corr_comm _ _, fun h => corr_self h⟩

theorem claim6_witness :
    corr (numsOf [some (Value.num 0), some (Value.num 1)])
      (numsOf [some (Value.num 0), some (Value.num 1)]) = 1 := by
  have h := claim6_corr_symmetric
    [("price", ⟨.numeric, [some (.num 0), some (.num 1)]⟩)]
    ("price", ⟨.numeric, [some (.num 0), some (.num 1)]⟩)
    ("price", ⟨.numeric, [some (.num 0), some (.num 1)]⟩)
    (by decide) (by decide)
  exact h.2 (by norm_num [sxy, devs, meanQ, numsOf, numCell, List.filterMap_cons,
    Function.comp])

/-- Claim C7: a frame parsed as exactly one column is split on `;` and
bound positionally to the 12 schema names in source order (whenever the
binding succeeds); a frame with two or more columns is passed through
unchanged, with no split. -/
theorem claim7_loader_binding (t : Table) :
    (∀ n c, t = [(n, c)] → ∀ out, loader t = some out →
      out.map Prod.fst = schema12 ∧ out = bindSchema (strCells c.cells)) ∧
    (2 ≤ t.length → loader t = some t) := by
  constructor
  · intro n c ht out hout
    subst ht
    rw [loader_single] at hout
    by_cases h12 : maxParts (strCells c.cells) = schema12.length
    · rw [if_pos h12, Option.some.injEq] at hout
      subst hout
      exact ⟨map_fst_bindSchema _, rfl⟩
    · rw [if_neg h12] at hout
      exact absurd hout (by simp)
  · exact loader_pass

theorem claim7_witness :
    (bindSchema (strCells
      [some (Value.str "a;1;b;2;c;3;d;ok;2020-01-05;cc;cat;100")])).map Prod.fst =
      schema12 :=
  ((claim7_loader_binding
    [("records", ⟨.obj, [some (.str "a;1;b;2;c;3;d;ok;2020-01-05;cc;cat;100")]⟩)]).1
    "records" ⟨.obj, [some (.str "a;1;b;2;c;3;d;ok;2020-01-05;cc;cat;100")]⟩ rfl
    (bindSchema (strCells [some (Value.str "a;1;b;2;c;3;d;ok;2020-01-05;cc;cat;100")]))
    rfl).1

/-- Claim C8: the cleaned-data file is written before `total_sales` is
derived: the persisted table is exactly the cleaned table, its header is
the 12 original columns without `total_sales`, and the in-memory table
afterwards is the written table plus the appended `total_sales` column. -/
theorem claim8_written_file (t0 t1 : Table)
    (h1 : loader t0 = some t1) (h2 : t1.map Prod.fst = schema12)
    (h3 : (pipeline t0).isSome = true) :
    ∃ w f, pipeline t0 = some (w, f) ∧
      cleanTable t1 = some w ∧
      w.map Prod.fst = schema12 ∧
      "total_sales" ∉ w.map Prod.fst ∧
      (∃ cs, f = w ++ [("total_sales", ⟨.numeric, cs⟩)]) ∧
      f.map Prod.fst = schema12 ++ ["total_sales"] := by
  have hp : pipeline t0 =
      (cleanTable t1).bind fun t2 => (addTotalSales t2).map fun t3 => (t2, t3) := by
    unfold pipeline
    rw [h1, Option.some_bind]
  rw [hp] at h3
  cases hc : cleanTable t1 with
  | none => rw [hc] at h3; simp at h3
  | some t2 =>
    rw [hc, Option.some_bind] at h3
    cases hats : addTotalSales t2 with
    | none => rw [hats] at h3; simp at h3
    | some t3 =>
      have hpips : pipeline t0 = some (t2, t3) := by
        rw [hp, hc, Option.some_bind, hats, Option.map_some']
      have hw : t2.map Prod.fst = schema12 := (cleanTable_names hc).trans h2
      obtain ⟨cs, hcs⟩ : ∃ cs, t3 = t2 ++ [("total_sales", ⟨.numeric, cs⟩)] := by
        unfold addTotalSales at hats
        cases hts : totalSalesCells t2 with
        | none => rw [hts] at hats; simp at hats
        | some l =>
          rw [hts] at hats
          simp only [Option.map_some', Option.some.injEq] at hats
          exact ⟨l, hats.symm⟩
      refine ⟨t2, t3, hpips, rfl, hw, ?_, ⟨cs, hcs⟩, ?_⟩
      · rw [hw]
        decide
      · rw [hcs]
        simp [hw]

/-- A concrete already-split one-row frame with the 12 schema columns. -/
def sampleTable12 : Table :=
  [("order_id", ⟨.obj, [some (.str "o1")]⟩),
   ("quantity", ⟨.obj, [some (.str "2")]⟩),
   ("product_id", ⟨.obj, [some (.str "p1")]⟩),
   ("price", ⟨.obj, [some (.str "100")]⟩),
   ("seller_id", ⟨.obj, [some (.str "s1")]⟩),
   ("freight_value", ⟨.obj, [some (.str "3")]⟩),
   ("customer_id", ⟨.obj, [some (.str "c1")]⟩),
   ("order_status", ⟨.obj, [some (.str "ok")]⟩),
   ("purchase_date", ⟨.obj, [some (.str "2020-01-05")]⟩),
   ("payment_type", ⟨.obj, [some (.str "cc")]⟩),
   ("product_category_name", ⟨.obj, [some (.str "fashion")]⟩),
   ("product_weight_gram", ⟨.obj, [some (.str "500")]⟩)]

theorem claim8_witness :
    ∃ w f, pipeline sampleTable12 = some (w, f) ∧
      cleanTable sampleTable12 = some w ∧
      w.map Prod.fst = schema12 ∧
      "total_sales" ∉ w.map Prod.fst ∧
      (∃ cs, f = w ++ [("total_sales", ⟨.numeric, cs⟩)]) ∧
      f.map Prod.fst = schema12 ++ ["total_sales"] :=
  claim8_written_file sampleTable12 sampleTable12 rfl rfl (by decide)

/-- Helper: a column whose cells are all missing has no non-missing
values. -/
theorem nonMissing_of_all_none {cs : List Cell} (h : ∀ x ∈ cs, x = none) :
    nonMissing cs = [] := by
  rw [nonMissing, List.filterMap_eq_nil]
  intro a ha
  rw [h a ha]
  rfl

theorem numsOf_of_all_none {cs : List Cell} (h : ∀ x ∈ cs, x = none) :
    numsOf cs = [] := by
  rw [numsOf, List.filterMap_eq_nil]
  intro a ha
  rw [h a ha]
  rfl

theorem imputeTable_abort {c : Column} (hc : imputeColumn c = none) :
    ∀ pre post n, imputeTable (pre ++ (n, c) :: post) = none := by
  intro pre
  induction pre with
  | nil =>
    intro post n
    simp [imputeTable, hc]
  | cons p rest ih =>
    intro post n
    obtain ⟨pn, pc⟩ := p
    rw [List.cons_append]
    simp only [imputeTable]
    cases h1 : imputeColumn pc with
    | none => rfl
    | some c2 => rw [ih post n]

/-- Claim C9: on a column with zero non-missing values, the fill loop's
behavior splits by dtype: an object (categorical) column makes
`mode()[0]` raise, aborting the whole run wherever that column sits in
the table; a non-object (numeric) column gets `median() = NaN` and
`fillna(NaN)` leaves it unchanged — every value still missing, no
error. -/
theorem claim9_all_missing_column (c : Column) (hall : ∀ x ∈ c.cells, x = none) :
    (c.dtype = .obj → imputeColumn c = none ∧
      ∀ pre post n, imputeTable (pre ++ (n, c) :: post) = none) ∧
    (c.dtype ≠ .obj → imputeColumn c = some c) := by
  obtain ⟨d, cells⟩ := c
  have hnm : nonMissing cells = [] := nonMissing_of_all_none hall
  have hnq : numsOf cells = [] := numsOf_of_all_none hall
  constructor
  · intro hd
    simp only at hd
    subst hd
    have hnone : imputeColumn ⟨DType.obj, cells⟩ = none := by
      simp [imputeColumn, hnm, modeVal]
    exact ⟨hnone, imputeTable_abort hnone⟩
  · intro hd
    cases d with
    | obj => exact absurd rfl hd
    | numeric => simp [imputeColumn, hnq, medianQ_nil]
    | datetime => simp [imputeColumn, hnq, medianQ_nil]

theorem claim9_witness :
    imputeColumn ⟨.obj, [none]⟩ = none ∧
    imputeColumn ⟨.numeric, [none]⟩ = some ⟨.numeric, [none]⟩ :=
  ⟨((claim9_all_missing_column ⟨.obj, [none]⟩ (by decide)).1 rfl).1,
   (claim9_all_missing_column ⟨.numeric, [none]⟩ (by decide)).2 (by decide)⟩

/-- Helper: the imputation equation of a datetime column with a defined
median. -/
theorem imputeColumn_datetime_eq {cells : List Cell} {m : Rat}
    (hm : medianQ (numsOf cells) = some m) :
    imputeColumn ⟨.datetime, cells⟩ = some ⟨.datetime, fillCells cells (.num m)⟩ := by
  simp [imputeColumn, hm]

/-- Claim C10: the coerced `purchase_date` column has dtype `datetime64`,
not `object`, so the imputation branch (which only tests for `object`)
treats it as numeric: every missing `purchase_date` is filled with the
median of the non-missing timestamps, never with a mode. -/
theorem claim10_purchase_date_median (c : Column) :
    (coerceCol "purchase_date" c).dtype = .datetime ∧
    (coerceCol "purchase_date" c).dtype ≠ .obj ∧
    ∀ m, medianQ (numsOf (toDatetimeCol c).cells) = some m →
      imputeColumn (coerceCol "purchase_date" c) =
        some ⟨.datetime, fillCells (toDatetimeCol c).cells (.num m)⟩ ∧
      ∀ i, (toDatetimeCol c).cells.get? i = some none →
        (fillCells (toDatetimeCol c).cells (.num m)).get? i =
          some (some (.num m)) := by
  have hc : coerceCol "purchase_date" c = toDatetimeCol c := by
    rw [coerceCol, if_neg (by decide), if_pos rfl]
  refine ⟨by rw [hc]; rfl, by rw [hc]; simp [toDatetimeCol], ?_⟩
  intro m hm
  constructor
  · rw [hc]
    exact imputeColumn_datetime_eq hm
  · intro i hi
    exact fillCells_get_none hi _

theorem claim10_witness :
    imputeColumn (coerceCol "purchase_date" ⟨.obj, [some (.str "2020-01-05"), none]⟩) =
      some ⟨.datetime,
        fillCells (toDatetimeCol ⟨.obj, [some (.str "2020-01-05"), none]⟩).cells
          (.num 20200105)⟩ :=
  ((claim10_purchase_date_median ⟨.obj, [some (.str "2020-01-05"), none]⟩).2.2
    20200105 (by decide)).1

end PDA
